import Mathlib

/-!
Verification of the FlowTask task manager (src/script.js, src/app-core.js,
src/app-views.js) against its specification.

The JavaScript code is shallowly embedded:
- a JS string is its list of characters (Lean `String` wraps `List Char`);
- `String.prototype.trim` is modelled by `jsTrim`;
- `JSON.stringify` / `JSON.parse` are modelled at the level of the JSON
  value tree (`Json`): `JSON.parse` applied to `JSON.stringify` output
  reconstructs the same value tree, so the persisted value is modelled as
  the `Json` tree and the pair stringify/parse as `encodeTasks` /
  `decodeTasks`;
- `localStorage` is a `Storage` record holding the value stored under the
  fixed key, plus a counter of `saveTasks` invocations used to state the
  "persists once per batch" contract;
- `Date.now()` and `new Date().toISOString()` are modelled by an explicit
  `now : Nat` argument: the timestamp is an input from the environment
  (ISO-8601 strings of instants compare chronologically, so an instant is
  represented by a natural number);
- `Array.prototype.sort` is a stable sort by a comparator (ECMA-262
  requires sort stability); it is modelled by the structural stable
  insertion sort `stableSort`.  Its in-place mutation of the receiver is
  modelled explicitly in `renderTasksData`.

The two app variants are modelled in namespaces named after their classes:
`TaskManager` (src/script.js) and `FlowTaskPro` (src/app-core.js and the
prototype extension in src/app-views.js).  The `TaskManager` variant
creates tasks without the `priority`, `dueDate` and `project` fields; such
an absent field is modelled as `none` (no operation in the repository
distinguishes an absent field from a null one).
-/

namespace FlowTask

/-- Task priority, the enum of the Pro variant with members high, medium
and low. -/
inductive Priority where
  | high
  | medium
  | low
deriving DecidableEq, Repr

/-- A task record, with all fields appearing in either variant.
`TaskManager` (script.js) tasks carry only `id`, `text`, `completed`,
`createdAt`; the remaining fields are `none` there. -/
structure Task where
  id : String
  text : String
  completed : Bool
  priority : Option Priority
  dueDate : Option String
  project : Option String
  createdAt : Nat
deriving DecidableEq, Repr

/-! ### JS string primitives -/

/-- Whitespace as removed by `String.prototype.trim` (space, tab, line
terminators, vertical tab, form feed). -/
def isJsWhitespace (c : Char) : Bool :=
  c == ' ' || c == '\t' || c == '\n' || c == '\r' || c == '\x0b' || c == '\x0c'

/-- Drop whitespace from both ends of a character list. -/
def jsTrimChars (s : List Char) : List Char :=
  ((s.dropWhile isJsWhitespace).reverse.dropWhile isJsWhitespace).reverse

/-- Model of `String.prototype.trim`. -/
def jsTrim (s : String) : String :=
  ⟨jsTrimChars s.data⟩

/-- Model of the JS `length` property of a string. -/
def jsLength (s : String) : Nat :=
  s.data.length

/-! ### Validation

`validateTask` returns `none` on success.  A failure is reported in the
source through a notification message; the message "Task cannot be empty"
is the `Empty` error and "Task must be less than 100 characters" is the
`TooLong` error of the specification. -/

/-- Validation errors named by the specification. -/
inductive ValidationError where
  | Empty
  | TooLong
deriving DecidableEq, Repr

/-- Translation of `TaskManager.validateTask` (src/script.js lines
127-138): reject when the trimmed text is empty or longer than 100
characters. -/
def TaskManager.validateTask (text : String) : Option ValidationError :=
  let trimmed := jsTrim text
  if trimmed = "" then some ValidationError.Empty
  else if 100 < jsLength trimmed then some ValidationError.TooLong
  else none

/-- Translation of `FlowTaskPro.validateTask` (src/app-core.js lines
153-160): this variant has no length bound, only the emptiness check. -/
def FlowTaskPro.validateTask (text : String) : Option ValidationError :=
  let trimmed := jsTrim text
  if trimmed = "" then some ValidationError.Empty
  else none

/-! ### Persistence Adapter -/

/-- A JSON value tree. -/
inductive Json where
  | null
  | bool (b : Bool)
  | num (n : Nat)
  | str (s : String)
  | arr (elems : List Json)
  | obj (fields : List (String × Json))

/-- The string form a priority takes in the stored JSON. -/
def encodePriority : Priority → String
  | Priority.high => "high"
  | Priority.medium => "medium"
  | Priority.low => "low"

def decodePriority (s : String) : Option Priority :=
  if s = "high" then some Priority.high
  else if s = "medium" then some Priority.medium
  else if s = "low" then some Priority.low
  else none

/-- A nullable string field, as `JSON.stringify` writes it. -/
def encodeOptStr : Option String → Json
  | none => Json.null
  | some s => Json.str s

def decodeOptStr : Json → Option (Option String)
  | Json.null => some none
  | Json.str s => some (some s)
  | _ => none

/-- The JSON object a task is stringified to, with the fields in the order
the constructors in `addTask` write them (src/script.js lines 70-75,
src/app-core.js lines 99-107).  A field absent in the simpler variant is
written as null; no code in the repository distinguishes the two. -/
def encodeTask (t : Task) : Json :=
  Json.obj
    [("id", Json.str t.id),
     ("text", Json.str t.text),
     ("completed", Json.bool t.completed),
     ("priority", match t.priority with
                  | none => Json.null
                  | some p => Json.str (encodePriority p)),
     ("dueDate", encodeOptStr t.dueDate),
     ("project", encodeOptStr t.project),
     ("createdAt", Json.num t.createdAt)]

/-- Reading a task record back from its JSON object. -/
def decodeTask : Json → Option Task
  | Json.obj
      [("id", Json.str id),
       ("text", Json.str text),
       ("completed", Json.bool completed),
       ("priority", pj),
       ("dueDate", dj),
       ("project", prj),
       ("createdAt", Json.num createdAt)] => do
    let priority ← match pj with
      | Json.null => some none
      | Json.str s => (decodePriority s).map some
      | _ => none
    let dueDate ← decodeOptStr dj
    let project ← decodeOptStr prj
    pure { id := id, text := text, completed := completed,
           priority := priority, dueDate := dueDate, project := project,
           createdAt := createdAt }
  | _ => none

/-- Serialization of the whole collection (`JSON.stringify(this.tasks)`). -/
def encodeTasks (tasks : List Task) : Json :=
  Json.arr (tasks.map encodeTask)

def decodeTaskList : List Json → Option (List Task)
  | [] => some []
  | j :: js => do
    let t ← decodeTask j
    let ts ← decodeTaskList js
    pure (t :: ts)

/-- Deserialization of the whole collection (`JSON.parse(stored)`). -/
def decodeTasks : Json → Option (List Task)
  | Json.arr elems => decodeTaskList elems
  | _ => none

/-- The local key-value backend: the value stored under the fixed key, and
a count of `saveTasks` invocations (instrumentation for the
"persists once per batch" contract of the specification). -/
structure Storage where
  stored : Option Json
  saveCount : Nat

/-- Translation of `TaskManager.saveTasks` (src/script.js lines 39-46):
serialize the collection and write it under the fixed key. -/
def TaskManager.saveTasks (tasks : List Task) (st : Storage) : Storage :=
  { stored := some (encodeTasks tasks), saveCount := st.saveCount + 1 }

/-- Translation of `TaskManager.loadTasks` (src/script.js lines 29-37):
read the fixed key; an absent key yields the empty collection, and a value
that fails to parse is caught and yields the empty collection. -/
def TaskManager.loadTasks (st : Storage) : List Task :=
  match st.stored with
  | none => []
  | some j => (decodeTasks j).getD []

/-! ### Task Store state and CRUD operations -/

/-- The mutable state of an app instance: the in-memory collection, the
storage backend, and the current filter and sort selections. -/
structure AppState where
  tasks : List Task
  storage : Storage
  currentFilter : String
  currentSort : String

namespace TaskManager

/-- Translation of `TaskManager.addTask` (src/script.js lines 67-83):
validate, build the new task from the current instant `now`
(`Date.now().toString()` for the id, the same instant for `createdAt`),
prepend it (`unshift`), persist.  Returns the success flag the source
returns.  This variant does not set `priority`, `dueDate` or `project`. -/
def addTask (st : AppState) (now : Nat) (text : String) : Bool × AppState :=
  match validateTask text with
  | some _ => (false, st)
  | none =>
    let newTask : Task :=
      { id := toString now, text := jsTrim text, completed := false,
        priority := none, dueDate := none, project := none, createdAt := now }
    let tasks := newTask :: st.tasks
    (true, { st with tasks := tasks, storage := saveTasks tasks st.storage })

/-- Flip `completed` on the first task with the given id, as
`this.tasks.find` followed by the in-place flip does. -/
def toggleFirst (id : String) : List Task → List Task
  | [] => []
  | t :: ts =>
    if t.id = id then { t with completed := !t.completed } :: ts
    else t :: toggleFirst id ts

/-- Translation of `TaskManager.toggleTask` (src/script.js lines 85-93):
if a task with the id exists, flip its flag and persist; otherwise do
nothing. -/
def toggleTask (st : AppState) (id : String) : AppState :=
  if st.tasks.any fun t => t.id = id then
    let tasks := toggleFirst id st.tasks
    { st with tasks := tasks, storage := saveTasks tasks st.storage }
  else st

/-- Replace the text of the first task with the given id by the trimmed
new text. -/
def editFirst (id : String) (newText : String) : List Task → List Task
  | [] => []
  | t :: ts =>
    if t.id = id then { t with text := jsTrim newText } :: ts
    else t :: editFirst id newText ts

/-- Translation of `TaskManager.editTask` (src/script.js lines 95-107):
validate the new text; if a task with the id exists, store the trimmed
text and persist, returning true; otherwise return false. -/
def editTask (st : AppState) (id : String) (newText : String) : Bool × AppState :=
  match validateTask newText with
  | some _ => (false, st)
  | none =>
    if st.tasks.any fun t => t.id = id then
      let tasks := editFirst id newText st.tasks
      (true, { st with tasks := tasks, storage := saveTasks tasks st.storage })
    else (false, st)

/-- Translation of `TaskManager.deleteTask` (src/script.js lines 109-115):
keep the tasks whose id differs, persist. -/
def deleteTask (st : AppState) (id : String) : AppState :=
  let tasks := st.tasks.filter fun t => t.id != id
  { st with tasks := tasks, storage := saveTasks tasks st.storage }

/-- Translation of `TaskManager.clearCompleted` (src/script.js lines
117-124): count the completed tasks, keep the uncompleted ones, persist
once.  The count is shown to the user; it is returned here. -/
def clearCompleted (st : AppState) : Nat × AppState :=
  let completedCount := (st.tasks.filter fun t => t.completed).length
  let tasks := st.tasks.filter fun t => !t.completed
  (completedCount, { st with tasks := tasks, storage := saveTasks tasks st.storage })

/-- Translation of `TaskManager.getFilteredTasks` (src/script.js lines
55-64): this variant knows only the active and completed cases; anything
else falls through to the whole collection. -/
def getFilteredTasks (currentFilter : String) (tasks : List Task) : List Task :=
  match currentFilter with
  | "active" => tasks.filter fun t => !t.completed
  | "completed" => tasks.filter fun t => t.completed
  | _ => tasks

end TaskManager

namespace FlowTaskPro

/-- Translation of `FlowTaskPro.addTask` (src/app-core.js lines 96-121):
like the simpler variant but with the priority, due date and project
arguments (their source defaults are medium, null and Inbox).  The
validation of this variant has no length bound. -/
def addTask (st : AppState) (now : Nat) (text : String) (priority : Priority)
    (dueDate : Option String) (project : String) : Bool × AppState :=
  match validateTask text with
  | some _ => (false, st)
  | none =>
    let newTask : Task :=
      { id := toString now, text := jsTrim text, completed := false,
        priority := some priority, dueDate := dueDate, project := some project,
        createdAt := now }
    let tasks := newTask :: st.tasks
    (true, { st with tasks := tasks, storage := TaskManager.saveTasks tasks st.storage })

/-- Translation of the Pro `getFilteredTasks` (src/app-views.js lines
108-124).  The specification calls the third mode highPriority; its value
in the source is the string "high".  A mode matching no case (including
"all") leaves the collection as is. -/
def getFilteredTasks (currentFilter : String) (tasks : List Task) : List Task :=
  match currentFilter with
  | "active" => tasks.filter fun t => !t.completed
  | "completed" => tasks.filter fun t => t.completed
  | "high" => tasks.filter fun t => t.priority == some Priority.high
  | _ => tasks

/-- The rank table `priorityOrder` with high 3, medium 2, low 1
(src/app-views.js line 133).  Tasks of the Pro variant always carry a
priority; an absent priority (for which the source comparator has no
defined value) is ranked below low so the function is total. -/
def priorityOrder : Option Priority → Nat
  | some Priority.high => 3
  | some Priority.medium => 2
  | some Priority.low => 1
  | none => 0

/-- Stable insertion into a sorted list: the new element goes before the
first element it may precede.  Together with `stableSort` this models the
stable comparator sort required of `Array.prototype.sort` by ECMA-262. -/
def insertSorted (le : Task → Task → Bool) (a : Task) : List Task → List Task
  | [] => [a]
  | b :: bs => if le a b then a :: b :: bs else b :: insertSorted le a bs

/-- Stable sort by a total preorder.  The output of a stable sort is
determined by the comparator and the input order, so any faithful model of
the engine stable sort computes this function. -/
def stableSort (le : Task → Task → Bool) : List Task → List Task
  | [] => []
  | a :: as => insertSorted le a (stableSort le as)

/-- Translation of `FlowTaskPro.sortTasks` (src/app-views.js lines
126-138), as the comparator semantics of the three `tasks.sort` calls:
newest and oldest compare `createdAt` (date values of ISO strings compare
chronologically), priority compares ranks descending; any other key
(including "none") returns the input as is.  The in-place mutation
performed by `Array.prototype.sort` is modelled in `renderTasksData`. -/
def sortTasks (currentSort : String) (tasks : List Task) : List Task :=
  match currentSort with
  | "newest" => stableSort (fun a b => decide (b.createdAt ≤ a.createdAt)) tasks
  | "oldest" => stableSort (fun a b => decide (a.createdAt ≤ b.createdAt)) tasks
  | "priority" =>
    stableSort (fun a b => decide (priorityOrder b.priority ≤ priorityOrder a.priority)) tasks
  | _ => tasks

/-- Does `getFilteredTasks` return the store's own array rather than a
fresh one?  In the source, only the three listed cases build a new array
via `Array.prototype.filter`; every other mode returns `this.tasks`
itself. -/
def filterAliasesStore (currentFilter : String) : Bool :=
  match currentFilter with
  | "active" => false
  | "completed" => false
  | "high" => false
  | _ => true

/-- Does `sortTasks` call `Array.prototype.sort` (which reorders its
receiver in place)?  True for the three sorting keys; the default case
returns without sorting. -/
def sortMutatesInPlace (currentSort : String) : Bool :=
  match currentSort with
  | "newest" => true
  | "oldest" => true
  | "priority" => true
  | _ => false

/-- Data flow of `FlowTaskPro.renderTasks` (src/app-views.js lines
102-106): the projection handed to the renderer, paired with the store's
collection after the call.  When the filter mode aliases the store's own
array and the sort key sorts in place, the store's array is reordered by
the sort. -/
def renderTasksData (st : AppState) : List Task × List Task :=
  let filteredTasks := getFilteredTasks st.currentFilter st.tasks
  let sortedTasks := sortTasks st.currentSort filteredTasks
  (sortedTasks,
    if filterAliasesStore st.currentFilter && sortMutatesInPlace st.currentSort
    then sortedTasks else st.tasks)

end FlowTaskPro

/-! ### Operation sequences over the simpler variant's store -/

/-- One user-level store operation, with the environment inputs it
consumes (the instant of an add). -/
inductive Op where
  | add (now : Nat) (text : String)
  | toggle (id : String)
  | edit (id : String) (newText : String)
  | delete (id : String)
  | clear

/-- Apply one operation to the state, discarding the returned flag or
count. -/
def applyOp (st : AppState) : Op → AppState
  | Op.add now text => (TaskManager.addTask st now text).2
  | Op.toggle id => TaskManager.toggleTask st id
  | Op.edit id newText => (TaskManager.editTask st id newText).2
  | Op.delete id => TaskManager.deleteTask st id
  | Op.clear => (TaskManager.clearCompleted st).2

/-- Run a sequence of operations. -/
def runOps (st : AppState) (ops : List Op) : AppState :=
  ops.foldl applyOp st

/-- Every add in the sequence happens at an instant whose decimal string
is not among the ids then in the collection (`Date.now` collisions with
existing ids excluded). -/
def freshOps (st : AppState) : List Op → Bool
  | [] => true
  | op :: ops =>
    (match op with
     | Op.add now _ => !((st.tasks.map Task.id).contains (toString now))
     | _ => true) && freshOps (applyOp st op) ops

/-- Every task text in the collection is its own trimmed form and is
non-empty. -/
def TextsTrimmed (tasks : List Task) : Prop :=
  ∀ t ∈ tasks, jsTrim t.text = t.text ∧ t.text ≠ ""

/-! ### Concrete states used as evaluation inputs -/

/-- A fresh app instance over an empty backend: the simpler variant loads
the empty collection from an absent key. -/
def emptyState : AppState :=
  { tasks := [], storage := { stored := none, saveCount := 0 },
    currentFilter := "all", currentSort := "newest" }

/-- A sample active high-priority task created at instant 1. -/
def sampleTaskA : Task :=
  { id := "a1", text := "first", completed := false,
    priority := some Priority.high, dueDate := none, project := some "Inbox",
    createdAt := 1 }

/-- A sample completed low-priority task created at instant 2. -/
def sampleTaskB : Task :=
  { id := "b2", text := "second", completed := true,
    priority := some Priority.low, dueDate := some "2026-01-01",
    project := some "Work", createdAt := 2 }

/-- A state holding the two sample tasks newest first, with the filter
showing all tasks and the sort key oldest first. -/
def mutationState : AppState :=
  { tasks := [sampleTaskB, sampleTaskA],
    storage := { stored := none, saveCount := 0 },
    currentFilter := "all", currentSort := "oldest" }

/-- An input whose trimmed form is exactly 100 characters, surrounded by
whitespace. -/
def text100 : String :=
  ⟨' ' :: (List.replicate 100 'a' ++ [' '])⟩

/-- An input of 101 characters with no surrounding whitespace. -/
def text101 : String :=
  ⟨List.replicate 101 'b'⟩

/-! ## Lemmas about trimming -/

theorem dropWhile_dropWhile (p : Char → Bool) (l : List Char) :
    (l.dropWhile p).dropWhile p = l.dropWhile p := by
  induction l with
  | nil => rfl
  | cons a l ih =>
    by_cases h : p a
    · simpa [List.dropWhile_cons, h] using ih
    · simp [List.dropWhile_cons, h]

theorem dropWhile_suffix (p : Char → Bool) (l : List Char) :
    l.dropWhile p <:+ l := by
  induction l with
  | nil => exact List.suffix_rfl
  | cons a l ih =>
    by_cases h : p a
    · simp only [List.dropWhile_cons, h, if_true]
      exact ih.trans (List.suffix_cons a l)
    · simp [List.dropWhile_cons, h]

theorem dropWhile_eq_self_of_prefix {p : Char → Bool} {x y : List Char}
    (hpre : x <+: y) (hy : y.dropWhile p = y) : x.dropWhile p = x := by
  cases x with
  | nil => rfl
  | cons a x =>
    cases y with
    | nil => simp at hpre
    | cons b y =>
      obtain ⟨t, ht⟩ := hpre
      injection ht with h1 _
      subst h1
      by_cases h : p a
      · rw [List.dropWhile_cons, if_pos h] at hy
        exfalso
        have := congrArg List.length hy
        have hle := ((dropWhile_suffix p y).sublist).length_le
        simp at this
        omega
      · simp [List.dropWhile_cons, h]

/-- Trimming is idempotent. -/
theorem jsTrimChars_idem (s : List Char) :
    jsTrimChars (jsTrimChars s) = jsTrimChars s := by
  unfold jsTrimChars
  have h1 : ∀ l : List Char,
      (((l.dropWhile isJsWhitespace).reverse.dropWhile isJsWhitespace).reverse).dropWhile
        isJsWhitespace
        = ((l.dropWhile isJsWhitespace).reverse.dropWhile isJsWhitespace).reverse := by
    intro l
    apply dropWhile_eq_self_of_prefix (y := l.dropWhile isJsWhitespace)
    · exact List.reverse_suffix.mp
        (by simpa using dropWhile_suffix isJsWhitespace (l.dropWhile isJsWhitespace).reverse)
    · exact dropWhile_dropWhile _ _
  rw [h1 s]
  rw [List.reverse_reverse, dropWhile_dropWhile]

theorem jsTrim_idem (s : String) : jsTrim (jsTrim s) = jsTrim s := by
  unfold jsTrim
  exact congrArg String.mk (jsTrimChars_idem s.data)

theorem jsLength_eq_zero_iff (s : String) : jsLength s = 0 ↔ s = "" := by
  constructor
  · intro h
    cases s with
    | mk data =>
      cases data with
      | nil => rfl
      | cons c cs => simp [jsLength] at h
  · intro h
    subst h
    rfl

/-- Unfolding of the simpler variant's validation. -/
theorem TaskManager.validateTask_eq (text : String) :
    TaskManager.validateTask text
      = if jsTrim text = "" then some ValidationError.Empty
        else if 100 < jsLength (jsTrim text) then some ValidationError.TooLong
        else none := rfl

theorem TaskManager.validateTask_none {text : String}
    (h : TaskManager.validateTask text = none) :
    jsTrim text ≠ "" ∧ jsLength (jsTrim text) ≤ 100 := by
  rw [TaskManager.validateTask_eq] at h
  by_cases h1 : jsTrim text = ""
  · simp [h1] at h
  · by_cases h2 : 100 < jsLength (jsTrim text)
    · simp [h1, h2] at h
    · exact ⟨h1, by omega⟩

theorem TaskManager.validateTask_of_le {text : String}
    (h1 : jsTrim text ≠ "") (h2 : jsLength (jsTrim text) ≤ 100) :
    TaskManager.validateTask text = none := by
  rw [TaskManager.validateTask_eq]
  simp [h1, Nat.not_lt.mpr h2]

/-! ## Lemmas about the Persistence Adapter -/

theorem decodeTask_encodeTask (t : Task) : decodeTask (encodeTask t) = some t := by
  obtain ⟨id, text, completed, priority, dueDate, project, createdAt⟩ := t
  cases priority with
  | none =>
    cases dueDate <;> cases project <;> rfl
  | some p =>
    cases p <;> cases dueDate <;> cases project <;> rfl

theorem decodeTaskList_encode (tasks : List Task) :
    decodeTaskList (tasks.map encodeTask) = some tasks := by
  induction tasks with
  | nil => rfl
  | cons t ts ih =>
    simp [decodeTaskList, decodeTask_encodeTask, ih]

theorem decodeTasks_encodeTasks (tasks : List Task) :
    decodeTasks (encodeTasks tasks) = some tasks := by
  simp [decodeTasks, encodeTasks, decodeTaskList_encode]

/-- C1.  For every valid collection X of tasks, saving X via the
Persistence Adapter and then loading returns a collection equal to X,
preserving the order of tasks and the exact value of every field (id,
text, completed, priority, dueDate, project, createdAt), including for
collections of 0, 1, and 100 tasks: the round trip is proved for every
collection and every starting storage state. -/
theorem save_load_roundtrip (tasks : List Task) (st : Storage) :
    TaskManager.loadTasks (TaskManager.saveTasks tasks st) = tasks := by
  simp [TaskManager.loadTasks, TaskManager.saveTasks, decodeTasks_encodeTasks]

/-! ## Validation claims -/

/-- C3.  For every input text whose trimmed form is empty, add fails with
the Empty validation error (in both variants), and in the variant with the
100-character bound add fails with the TooLong error when the bound is
exceeded; in every such failure case the task collection (indeed the whole
state) is left unchanged. -/
theorem add_validation_failure (st : AppState) (now : Nat) (text : String) :
    (jsTrim text = "" →
      TaskManager.validateTask text = some ValidationError.Empty
      ∧ FlowTaskPro.validateTask text = some ValidationError.Empty
      ∧ TaskManager.addTask st now text = (false, st))
    ∧ (100 < jsLength (jsTrim text) →
      TaskManager.validateTask text = some ValidationError.TooLong
      ∧ TaskManager.addTask st now text = (false, st)) := by
  constructor
  · intro h
    have hv : TaskManager.validateTask text = some ValidationError.Empty := by
      rw [TaskManager.validateTask_eq]
      simp [h]
    refine ⟨hv, ?_, ?_⟩
    · unfold FlowTaskPro.validateTask
      simp [h]
    · unfold TaskManager.addTask
      rw [hv]
  · intro h
    have hne : jsTrim text ≠ "" := by
      intro he
      rw [he] at h
      have h0 : jsLength "" = 0 := rfl
      omega
    have hv : TaskManager.validateTask text = some ValidationError.TooLong := by
      rw [TaskManager.validateTask_eq]
      simp [hne, h]
    refine ⟨hv, ?_⟩
    unfold TaskManager.addTask
    rw [hv]

/-- Witness for C3: the whitespace-only input fails as Empty and the
101-character input fails as TooLong, both leaving the state unchanged. -/
theorem add_validation_failure_witness :
    (TaskManager.validateTask "   " = some ValidationError.Empty
      ∧ FlowTaskPro.validateTask "   " = some ValidationError.Empty
      ∧ TaskManager.addTask emptyState 0 "   " = (false, emptyState))
    ∧ (TaskManager.validateTask text101 = some ValidationError.TooLong
      ∧ TaskManager.addTask emptyState 0 text101 = (false, emptyState)) := by
  constructor
  · exact (add_validation_failure emptyState 0 "   ").1 (by decide)
  · exact (add_validation_failure emptyState 0 text101).2 (by decide)

/-- C10.  The 100-character bound applies to the trimmed text with a
strict comparison: the TooLong rejection happens exactly when the trimmed
length is 101 or more (regardless of surrounding whitespace), and an input
whose trimmed length is exactly 100 passes validation, is accepted by add,
and is accepted by edit when the edited id exists. -/
theorem length_bound_strict (st : AppState) (now : Nat) (id text : String) :
    (TaskManager.validateTask text = some ValidationError.TooLong
       ↔ 101 ≤ jsLength (jsTrim text))
    ∧ (jsLength (jsTrim text) = 100 →
        TaskManager.validateTask text = none
        ∧ (TaskManager.addTask st now text).1 = true
        ∧ ((st.tasks.any fun t => t.id = id) = true →
            (TaskManager.editTask st id text).1 = true)) := by
  constructor
  · constructor
    · intro h
      rw [TaskManager.validateTask_eq] at h
      by_cases h1 : jsTrim text = ""
      · simp [h1] at h
      · by_cases h2 : 100 < jsLength (jsTrim text)
        · omega
        · simp [h1, h2] at h
    · intro h
      have hne : jsTrim text ≠ "" := by
        intro he
        have := (jsLength_eq_zero_iff (jsTrim text)).mpr he
        omega
      rw [TaskManager.validateTask_eq]
      simp [hne]
      omega
  · intro h
    have hne : jsTrim text ≠ "" := by
      intro he
      have := (jsLength_eq_zero_iff (jsTrim text)).mpr he
      omega
    have hv : TaskManager.validateTask text = none :=
      TaskManager.validateTask_of_le hne (by omega)
    refine ⟨hv, ?_, ?_⟩
    · unfold TaskManager.addTask
      rw [hv]
    · intro hany
      unfold TaskManager.editTask
      rw [hv]
      simp [hany]

/-- Witness for C10: an input of exactly 100 characters surrounded by
whitespace passes validation and is accepted by add and by edit of an
existing id. -/
theorem length_bound_strict_witness :
    TaskManager.validateTask text100 = none
    ∧ (TaskManager.addTask mutationState 9 text100).1 = true
    ∧ (TaskManager.editTask mutationState "a1" text100).1 = true := by
  have h := (length_bound_strict mutationState 9 "a1" text100).2 (by decide)
  exact ⟨h.1, h.2.1, h.2.2 (by decide)⟩

/-! ## Bulk clearing -/

/-- C5.  clearCompleted removes exactly the tasks whose completed flag is
true (leaving the tasks with completed false, in their original order),
returns the count of tasks removed, and invokes the Persistence Adapter
exactly once for the whole batch. -/
theorem clearCompleted_spec (st : AppState) :
    (TaskManager.clearCompleted st).2.tasks = st.tasks.filter (fun t => !t.completed)
    ∧ (∀ t ∈ (TaskManager.clearCompleted st).2.tasks, t.completed = false)
    ∧ (TaskManager.clearCompleted st).1 = (st.tasks.filter fun t => t.completed).length
    ∧ (TaskManager.clearCompleted st).2.storage.saveCount = st.storage.saveCount + 1 := by
  refine ⟨rfl, ?_, rfl, rfl⟩
  intro t ht
  have hm : t ∈ st.tasks.filter (fun t => !t.completed) := ht
  rw [List.mem_filter] at hm
  simpa using hm.2

/-! ## Filtering -/

/-- C6.  The Pro filter with mode active returns exactly the tasks with
completed false, mode completed exactly those with completed true, the
high-priority mode (value "high" in the source) exactly those with high
priority, and any other mode (including "all") returns the collection
unchanged; the active and completed results are disjoint and together
they are a permutation of the full collection. -/
theorem getFilteredTasks_spec (tasks : List Task) (mode : String) :
    FlowTaskPro.getFilteredTasks "active" tasks = tasks.filter (fun t => !t.completed)
    ∧ FlowTaskPro.getFilteredTasks "completed" tasks = tasks.filter (fun t => t.completed)
    ∧ FlowTaskPro.getFilteredTasks "high" tasks
        = tasks.filter (fun t => t.priority == some Priority.high)
    ∧ (mode ≠ "active" → mode ≠ "completed" → mode ≠ "high" →
        FlowTaskPro.getFilteredTasks mode tasks = tasks)
    ∧ (∀ t, t ∈ FlowTaskPro.getFilteredTasks "active" tasks →
        t ∈ FlowTaskPro.getFilteredTasks "completed" tasks → False)
    ∧ List.Perm
        (FlowTaskPro.getFilteredTasks "completed" tasks
          ++ FlowTaskPro.getFilteredTasks "active" tasks)
        tasks := by
  refine ⟨rfl, rfl, rfl, ?_, ?_, ?_⟩
  · intro h1 h2 h3
    unfold FlowTaskPro.getFilteredTasks
    split <;> simp_all
  · intro t h1 h2
    have ha : t ∈ tasks.filter (fun t => !t.completed) := h1
    have hc : t ∈ tasks.filter (fun t => t.completed) := h2
    rw [List.mem_filter] at ha hc
    rcases ha with ⟨-, ha⟩
    rcases hc with ⟨-, hc⟩
    simp [hc] at ha
  · exact List.filter_append_perm (fun t => t.completed) tasks

/-- Witness for C6: the mode "all" (matching no filter case) leaves a
concrete two-task collection unchanged. -/
theorem getFilteredTasks_spec_witness :
    FlowTaskPro.getFilteredTasks "all" [sampleTaskA, sampleTaskB]
      = [sampleTaskA, sampleTaskB] :=
  (getFilteredTasks_spec [sampleTaskA, sampleTaskB] "all").2.2.2.1
    (by decide) (by decide) (by decide)

/-! ## Sorting lemmas -/

theorem mem_insertSorted {le : Task → Task → Bool} {a x : Task} {l : List Task} :
    x ∈ FlowTaskPro.insertSorted le a l ↔ x = a ∨ x ∈ l := by
  induction l with
  | nil => simp [FlowTaskPro.insertSorted]
  | cons b bs ih =>
    unfold FlowTaskPro.insertSorted
    cases hle : le a b
    · simp only [Bool.false_eq_true, if_false, List.mem_cons, ih]
      tauto
    · simp only [if_true, List.mem_cons]

theorem insertSorted_perm (le : Task → Task → Bool) (a : Task) (l : List Task) :
    List.Perm (FlowTaskPro.insertSorted le a l) (a :: l) := by
  induction l with
  | nil => exact List.Perm.refl _
  | cons b bs ih =>
    unfold FlowTaskPro.insertSorted
    cases hle : le a b
    · simp only [Bool.false_eq_true, if_false]
      exact (List.Perm.cons b ih).trans (List.Perm.swap a b bs)
    · simp only [if_true]
      exact List.Perm.refl _

theorem stableSort_perm (le : Task → Task → Bool) (l : List Task) :
    List.Perm (FlowTaskPro.stableSort le l) l := by
  induction l with
  | nil => exact List.Perm.refl _
  | cons a as ih =>
    exact (insertSorted_perm le a (FlowTaskPro.stableSort le as)).trans
      (List.Perm.cons a ih)

theorem pairwise_insertSorted {le : Task → Task → Bool}
    (htot : ∀ x y, le x y = true ∨ le y x = true)
    (htrans : ∀ x y z, le x y = true → le y z = true → le x z = true)
    (a : Task) {l : List Task} (h : l.Pairwise fun x y => le x y = true) :
    (FlowTaskPro.insertSorted le a l).Pairwise fun x y => le x y = true := by
  induction l with
  | nil => simp [FlowTaskPro.insertSorted]
  | cons b bs ih =>
    unfold FlowTaskPro.insertSorted
    rcases List.pairwise_cons.mp h with ⟨hb, hbs⟩
    cases hle : le a b
    · simp only [Bool.false_eq_true, if_false]
      have hba : le b a = true := by
        rcases htot a b with h1 | h1
        · rw [h1] at hle
          exact absurd hle (by simp)
        · exact h1
      refine List.pairwise_cons.mpr ⟨?_, ih hbs⟩
      intro x hx
      rcases mem_insertSorted.mp hx with rfl | hxbs
      · exact hba
      · exact hb x hxbs
    · simp only [if_true]
      refine List.pairwise_cons.mpr ⟨?_, h⟩
      intro x hx
      rcases List.mem_cons.mp hx with rfl | hxbs
      · exact hle
      · exact htrans a b x hle (hb x hxbs)

theorem pairwise_stableSort (le : Task → Task → Bool)
    (htot : ∀ x y, le x y = true ∨ le y x = true)
    (htrans : ∀ x y z, le x y = true → le y z = true → le x z = true)
    (l : List Task) :
    (FlowTaskPro.stableSort le l).Pairwise fun x y => le x y = true := by
  induction l with
  | nil => simp [FlowTaskPro.stableSort]
  | cons a as ih => exact pairwise_insertSorted htot htrans a ih

theorem filter_insertSorted {le : Task → Task → Bool} {p : Task → Bool}
    (hpn : ∀ x y, p x = true → le x y = false → p y = false)
    (a : Task) (l : List Task) :
    (FlowTaskPro.insertSorted le a l).filter p
      = if p a then a :: l.filter p else l.filter p := by
  induction l with
  | nil =>
    cases hpa : p a <;> simp [FlowTaskPro.insertSorted, List.filter, hpa]
  | cons b bs ih =>
    unfold FlowTaskPro.insertSorted
    cases hle : le a b
    · simp only [Bool.false_eq_true, if_false]
      cases hpa : p a
      · rw [List.filter_cons, List.filter_cons, ih]
        simp [hpa]
      · have hpb : p b = false := hpn a b hpa hle
        rw [List.filter_cons, List.filter_cons, ih]
        simp [hpa, hpb]
    · simp only [if_true]
      cases hpa : p a
      · simp [List.filter_cons, hpa]
      · simp [List.filter_cons, hpa]

theorem filter_stableSort {le : Task → Task → Bool} {p : Task → Bool}
    (hpn : ∀ x y, p x = true → le x y = false → p y = false)
    (l : List Task) :
    (FlowTaskPro.stableSort le l).filter p = l.filter p := by
  induction l with
  | nil => rfl
  | cons a as ih =>
    have : FlowTaskPro.stableSort le (a :: as)
        = FlowTaskPro.insertSorted le a (FlowTaskPro.stableSort le as) := rfl
    rw [this, filter_insertSorted hpn]
    cases hpa : p a
    · simp [List.filter_cons, hpa, ih]
    · simp [List.filter_cons, hpa, ih]

/-- C7.  Sort with key priority places high before medium before low
(ranks never increase along the output) with tasks of equal priority
keeping their relative input order; newest and oldest order by createdAt
descending and ascending; any other key (such as "none", the default
case) returns the input in its original order.  Each sorting key
permutes the input. -/
theorem sortTasks_spec (tasks : List Task) (key : String) :
    (FlowTaskPro.sortTasks "priority" tasks).Pairwise
        (fun a b => FlowTaskPro.priorityOrder b.priority
          ≤ FlowTaskPro.priorityOrder a.priority)
    ∧ (∀ p0 : Option Priority,
        (FlowTaskPro.sortTasks "priority" tasks).filter (fun t => t.priority == p0)
          = tasks.filter (fun t => t.priority == p0))
    ∧ List.Perm (FlowTaskPro.sortTasks "priority" tasks) tasks
    ∧ (FlowTaskPro.sortTasks "newest" tasks).Pairwise
        (fun a b => b.createdAt ≤ a.createdAt)
    ∧ List.Perm (FlowTaskPro.sortTasks "newest" tasks) tasks
    ∧ (FlowTaskPro.sortTasks "oldest" tasks).Pairwise
        (fun a b => a.createdAt ≤ b.createdAt)
    ∧ List.Perm (FlowTaskPro.sortTasks "oldest" tasks) tasks
    ∧ (key ≠ "newest" → key ≠ "oldest" → key ≠ "priority" →
        FlowTaskPro.sortTasks key tasks = tasks) := by
  refine ⟨?_, ?_, ?_, ?_, ?_, ?_, ?_, ?_⟩
  · have h := pairwise_stableSort
      (fun a b : Task =>
        decide (FlowTaskPro.priorityOrder b.priority ≤ FlowTaskPro.priorityOrder a.priority))
      (fun x y => by
        rcases Nat.le_total (FlowTaskPro.priorityOrder y.priority)
          (FlowTaskPro.priorityOrder x.priority) with h | h
        · exact Or.inl (decide_eq_true h)
        · exact Or.inr (decide_eq_true h))
      (fun x y z hxy hyz =>
        decide_eq_true (Nat.le_trans (of_decide_eq_true hyz) (of_decide_eq_true hxy)))
      tasks
    exact h.imp fun hxy => of_decide_eq_true hxy
  · intro p0
    exact filter_stableSort
      (fun x y hx hle => by
        cases hpy : y.priority == p0
        · rfl
        · exfalso
          have hx2 : x.priority = p0 := by simpa using hx
          have hy2 : y.priority = p0 := by simpa using hpy
          rw [decide_eq_false_iff_not] at hle
          exact hle (by rw [hx2, hy2]))
      tasks
  · exact stableSort_perm _ tasks
  · have h := pairwise_stableSort
      (fun a b : Task => decide (b.createdAt ≤ a.createdAt))
      (fun x y => by
        rcases Nat.le_total y.createdAt x.createdAt with h | h
        · exact Or.inl (decide_eq_true h)
        · exact Or.inr (decide_eq_true h))
      (fun x y z hxy hyz =>
        decide_eq_true (Nat.le_trans (of_decide_eq_true hyz) (of_decide_eq_true hxy)))
      tasks
    exact h.imp fun hxy => of_decide_eq_true hxy
  · exact stableSort_perm _ tasks
  · have h := pairwise_stableSort
      (fun a b : Task => decide (a.createdAt ≤ b.createdAt))
      (fun x y => by
        rcases Nat.le_total x.createdAt y.createdAt with h | h
        · exact Or.inl (decide_eq_true h)
        · exact Or.inr (decide_eq_true h))
      (fun x y z hxy hyz =>
        decide_eq_true (Nat.le_trans (of_decide_eq_true hxy) (of_decide_eq_true hyz)))
      tasks
    exact h.imp fun hxy => of_decide_eq_true hxy
  · exact stableSort_perm _ tasks
  · intro h1 h2 h3
    unfold FlowTaskPro.sortTasks
    split <;> simp_all

/-- Witness for C7: the key "none" leaves a concrete two-task sequence in
its original order. -/
theorem sortTasks_spec_witness :
    FlowTaskPro.sortTasks "none" [sampleTaskB, sampleTaskA]
      = [sampleTaskB, sampleTaskA] :=
  (sortTasks_spec [sampleTaskB, sampleTaskA] "none").2.2.2.2.2.2.2
    (by decide) (by decide) (by decide)

/-! ## The projection is not mutation-free (C4) -/

/-- C4 fails on the code: when the filter mode is "all" the source
`getFilteredTasks` returns the store's own array, and the in-place
`Array.prototype.sort` inside `sortTasks` then reorders the store's
collection itself.  Evaluated at a concrete state (two tasks stored
newest first, filter "all", sort key "oldest"), the collection after
the projection differs from the collection before it. -/
theorem renderTasks_mutates_store :
    (FlowTaskPro.renderTasksData mutationState).2 ≠ mutationState.tasks
    ∧ (FlowTaskPro.renderTasksData mutationState).2 = [sampleTaskA, sampleTaskB]
    ∧ mutationState.tasks = [sampleTaskB, sampleTaskA] := by
  refine ⟨by decide, by decide, rfl⟩

/-! ## State equations for the CRUD operations -/

theorem addTask_tasks (st : AppState) (now : Nat) (text : String) :
    (TaskManager.addTask st now text).2.tasks
      = if TaskManager.validateTask text = none
        then ({ id := toString now, text := jsTrim text, completed := false,
                priority := none, dueDate := none, project := none,
                createdAt := now } : Task) :: st.tasks
        else st.tasks := by
  unfold TaskManager.addTask
  cases hv : TaskManager.validateTask text <;> simp [hv]

theorem toggleTask_tasks (st : AppState) (id : String) :
    (TaskManager.toggleTask st id).tasks
      = if (st.tasks.any fun t => t.id = id) = true
        then TaskManager.toggleFirst id st.tasks
        else st.tasks := by
  unfold TaskManager.toggleTask
  by_cases h : (st.tasks.any fun t => t.id = id) = true <;> simp [h]

theorem editTask_tasks (st : AppState) (id newText : String) :
    (TaskManager.editTask st id newText).2.tasks
      = if TaskManager.validateTask newText = none
            ∧ (st.tasks.any fun t => t.id = id) = true
        then TaskManager.editFirst id newText st.tasks
        else st.tasks := by
  unfold TaskManager.editTask
  cases hv : TaskManager.validateTask newText with
  | some e => simp [hv]
  | none =>
    by_cases h : (st.tasks.any fun t => t.id = id) = true <;> simp [hv, h]

theorem deleteTask_tasks (st : AppState) (id : String) :
    (TaskManager.deleteTask st id).tasks = st.tasks.filter fun t => t.id != id := rfl

theorem clearCompleted_tasks (st : AppState) :
    (TaskManager.clearCompleted st).2.tasks = st.tasks.filter fun t => !t.completed := rfl

theorem toggleFirst_map_id (id : String) (l : List Task) :
    (TaskManager.toggleFirst id l).map Task.id = l.map Task.id := by
  induction l with
  | nil => rfl
  | cons t ts ih =>
    unfold TaskManager.toggleFirst
    by_cases h : t.id = id
    · simp [h]
    · simp [h, ih]

theorem editFirst_map_id (id newText : String) (l : List Task) :
    (TaskManager.editFirst id newText l).map Task.id = l.map Task.id := by
  induction l with
  | nil => rfl
  | cons t ts ih =>
    unfold TaskManager.editFirst
    by_cases h : t.id = id
    · simp [h]
    · simp [h, ih]

theorem toggleFirst_map_text (id : String) (l : List Task) :
    (TaskManager.toggleFirst id l).map Task.text = l.map Task.text := by
  induction l with
  | nil => rfl
  | cons t ts ih =>
    unfold TaskManager.toggleFirst
    by_cases h : t.id = id
    · simp [h]
    · simp [h, ih]

/-! ## Distinct ids (C2) -/

theorem nodupIds_applyOp {st : AppState} :
    ∀ op : Op,
      (match op with
       | Op.add now _ => !((st.tasks.map Task.id).contains (toString now))
       | _ => true) = true →
      (st.tasks.map Task.id).Nodup →
      ((applyOp st op).tasks.map Task.id).Nodup := by
  intro op hfresh h
  cases op with
  | add now text =>
    show (((TaskManager.addTask st now text).2).tasks.map Task.id).Nodup
    rw [addTask_tasks]
    by_cases hv : TaskManager.validateTask text = none
    · rw [if_pos hv]
      simp only [List.map_cons]
      refine List.nodup_cons.mpr ⟨?_, h⟩
      simpa using hfresh
    · rw [if_neg hv]
      exact h
  | toggle id =>
    show ((TaskManager.toggleTask st id).tasks.map Task.id).Nodup
    rw [toggleTask_tasks]
    split
    · rw [toggleFirst_map_id]
      exact h
    · exact h
  | edit id newText =>
    show (((TaskManager.editTask st id newText).2).tasks.map Task.id).Nodup
    rw [editTask_tasks]
    split
    · rw [editFirst_map_id]
      exact h
    · exact h
  | delete id =>
    show (((TaskManager.deleteTask st id).tasks).map Task.id).Nodup
    rw [deleteTask_tasks]
    exact h.sublist ((List.filter_sublist st.tasks).map Task.id)
  | clear =>
    show (((TaskManager.clearCompleted st).2.tasks).map Task.id).Nodup
    rw [clearCompleted_tasks]
    exact h.sublist ((List.filter_sublist st.tasks).map Task.id)

theorem nodupIds_runOps :
    ∀ (ops : List Op) (st : AppState), freshOps st ops = true →
      (st.tasks.map Task.id).Nodup → ((runOps st ops).tasks.map Task.id).Nodup
  | [], _, _, h => h
  | op :: ops, st, hfresh, h => by
    have hsplit := Bool.and_eq_true_iff.mp hfresh
    exact nodupIds_runOps ops (applyOp st op) hsplit.2
      (nodupIds_applyOp op hsplit.1 h)

/-- C2 fails as stated: `Date.now()` is not guaranteed fresh.  Two adds at
the same instant 7 (possible within one millisecond) both receive the id
"7": starting from the empty collection (whose ids are trivially pairwise
distinct), the resulting collection has two equal ids. -/
theorem addTask_id_collision :
    (emptyState.tasks.map Task.id).Nodup
    ∧ ¬ ((runOps emptyState
          [Op.add 7 "task one", Op.add 7 "task two"]).tasks.map Task.id).Nodup := by
  constructor
  · decide
  · decide

/-- C2 (amended).  Provided every add in the sequence happens at an
instant whose decimal string is not already an id in the collection (that
is, excluding `Date.now()` collisions), every sequence of add, toggle,
edit, delete and clearCompleted operations started from a state with
pairwise-distinct ids yields a state with pairwise-distinct ids; in
particular each such add's new id differs from every id already present. -/
theorem distinct_ids_invariant (st : AppState) (ops : List Op)
    (hfresh : freshOps st ops = true)
    (hnodup : (st.tasks.map Task.id).Nodup) :
    ((runOps st ops).tasks.map Task.id).Nodup :=
  nodupIds_runOps ops st hfresh hnodup

/-- Witness for C2: a concrete three-operation trace with fresh instants
keeps the ids pairwise distinct. -/
theorem distinct_ids_invariant_witness :
    ((runOps emptyState
      [Op.add 7 "task one", Op.toggle "7", Op.add 8 "task two"]).tasks.map Task.id).Nodup :=
  distinct_ids_invariant emptyState
    [Op.add 7 "task one", Op.toggle "7", Op.add 8 "task two"]
    (by decide) (by decide)

/-! ## Texts are always trimmed and non-empty (C9) -/

theorem textsTrimmed_of_map_text {l l' : List Task}
    (hmap : l'.map Task.text = l.map Task.text) (h : TextsTrimmed l) :
    TextsTrimmed l' := by
  intro t ht
  have hmem : t.text ∈ l'.map Task.text := List.mem_map_of_mem Task.text ht
  rw [hmap] at hmem
  rcases List.mem_map.mp hmem with ⟨u, hu, hut⟩
  rw [← hut]
  exact h u hu

theorem textsTrimmed_filter {l : List Task} {p : Task → Bool}
    (h : TextsTrimmed l) : TextsTrimmed (l.filter p) :=
  fun t ht => h t (List.mem_of_mem_filter ht)

theorem textsTrimmed_editFirst (id newText : String) (hne : jsTrim newText ≠ "") :
    ∀ l : List Task, TextsTrimmed l → TextsTrimmed (TaskManager.editFirst id newText l)
  | [], h => h
  | a :: as, h => by
    unfold TaskManager.editFirst
    by_cases hid : a.id = id
    · rw [if_pos hid]
      intro t ht
      rcases List.mem_cons.mp ht with rfl | hmem
      · exact ⟨jsTrim_idem newText, hne⟩
      · exact h t (List.mem_cons_of_mem a hmem)
    · rw [if_neg hid]
      intro t ht
      rcases List.mem_cons.mp ht with rfl | hmem
      · exact h t (List.mem_cons_self t as)
      · exact textsTrimmed_editFirst id newText hne as
          (fun u hu => h u (List.mem_cons_of_mem a hu)) t hmem

theorem textsTrimmed_applyOp {st : AppState} (op : Op)
    (h : TextsTrimmed st.tasks) : TextsTrimmed (applyOp st op).tasks := by
  cases op with
  | add now text =>
    show TextsTrimmed (TaskManager.addTask st now text).2.tasks
    rw [addTask_tasks]
    by_cases hv : TaskManager.validateTask text = none
    · rw [if_pos hv]
      intro t ht
      rcases List.mem_cons.mp ht with rfl | hmem
      · exact ⟨jsTrim_idem text, (TaskManager.validateTask_none hv).1⟩
      · exact h t hmem
    · rw [if_neg hv]
      exact h
  | toggle id =>
    show TextsTrimmed (TaskManager.toggleTask st id).tasks
    rw [toggleTask_tasks]
    split
    · exact textsTrimmed_of_map_text (toggleFirst_map_text id st.tasks) h
    · exact h
  | edit id newText =>
    show TextsTrimmed (TaskManager.editTask st id newText).2.tasks
    rw [editTask_tasks]
    split
    · rename_i hcond
      exact textsTrimmed_editFirst id newText
        (TaskManager.validateTask_none hcond.1).1 st.tasks h
    · exact h
  | delete id =>
    show TextsTrimmed (TaskManager.deleteTask st id).tasks
    rw [deleteTask_tasks]
    exact textsTrimmed_filter h
  | clear =>
    show TextsTrimmed (TaskManager.clearCompleted st).2.tasks
    rw [clearCompleted_tasks]
    exact textsTrimmed_filter h

theorem textsTrimmed_runOps :
    ∀ (ops : List Op) (st : AppState), TextsTrimmed st.tasks →
      TextsTrimmed (runOps st ops).tasks
  | [], _, h => h
  | op :: ops, st, h =>
    textsTrimmed_runOps ops (applyOp st op) (textsTrimmed_applyOp op h)

/-- C9.  In every state reachable through the store's operations from a
state whose texts are trimmed and non-empty (such as the empty
collection), every task's text equals its own trimmed form and is
non-empty: add and edit store the trim of the validated input and no
other operation modifies text. -/
theorem texts_trimmed_invariant (st : AppState) (ops : List Op)
    (h : TextsTrimmed st.tasks) : TextsTrimmed (runOps st ops).tasks :=
  textsTrimmed_runOps ops st h

/-- Witness for C9: a concrete trace that adds untrimmed input and edits
with untrimmed input, starting from the empty collection. -/
theorem texts_trimmed_invariant_witness :
    TextsTrimmed (runOps emptyState
      [Op.add 5 "  buy milk  ", Op.edit "5" " call home "]).tasks :=
  texts_trimmed_invariant emptyState
    [Op.add 5 "  buy milk  ", Op.edit "5" " call home "]
    (fun t ht => absurd ht (List.not_mem_nil t))

/-! ## Collection order (C8) -/

/-- C8.  Every successful add places the newly created task at the front
of the collection with all pre-existing tasks following in their previous
order; toggle and edit leave the sequence of ids unchanged, and delete and
clearCompleted keep the retained tasks in their previous relative order
(the result is a sublist of the previous collection). -/
theorem collection_order (st : AppState) (now : Nat) (text id newText : String)
    (hvalid : TaskManager.validateTask text = none) :
    (TaskManager.addTask st now text).2.tasks
        = ({ id := toString now, text := jsTrim text, completed := false,
             priority := none, dueDate := none, project := none,
             createdAt := now } : Task) :: st.tasks
    ∧ (TaskManager.toggleTask st id).tasks.map Task.id = st.tasks.map Task.id
    ∧ (TaskManager.editTask st id newText).2.tasks.map Task.id = st.tasks.map Task.id
    ∧ List.Sublist (TaskManager.deleteTask st id).tasks st.tasks
    ∧ List.Sublist (TaskManager.clearCompleted st).2.tasks st.tasks := by
  refine ⟨?_, ?_, ?_, ?_, ?_⟩
  · rw [addTask_tasks, if_pos hvalid]
  · rw [toggleTask_tasks]
    split
    · exact toggleFirst_map_id id st.tasks
    · rfl
  · rw [editTask_tasks]
    split
    · exact editFirst_map_id id newText st.tasks
    · rfl
  · rw [deleteTask_tasks]
    exact List.filter_sublist st.tasks
  · rw [clearCompleted_tasks]
    exact List.filter_sublist st.tasks

/-- Witness for C8: a successful add on a concrete two-task state
prepends, and delete yields a sublist. -/
theorem collection_order_witness :
    (TaskManager.addTask mutationState 9 "new entry").2.tasks
        = ({ id := toString 9, text := jsTrim "new entry", completed := false,
             priority := none, dueDate := none, project := none,
             createdAt := 9 } : Task) :: mutationState.tasks
    ∧ List.Sublist (TaskManager.deleteTask mutationState "a1").tasks
        mutationState.tasks := by
  have h := collection_order mutationState 9 "new entry" "a1" "x" (by decide)
  exact ⟨h.1, h.2.2.2.1⟩

end FlowTask
